import Mathlib

/-!
Verification of the pitch-statistics orchestration layer in
`src/speech/src/speech.cpp` (functions `getPitch1` .. `getPitch4`,
`__PitchAnalyzer`, `PitchAnalyzer2`, and the `errCode` catalog).

Modelling conventions:
* C `double` values are modelled as exact rationals `ℚ`; the one use of
  `std::sqrt` (an external libm collaborator, not code of this repository)
  is modelled as an uninterpreted function `ℚ → ℚ` carried in the
  environment, about which theorems assume only the libm contract
  (nonnegative result on nonnegative input).
* index-based `for` loops become folds over `List.range'` (the list of the
  indices the loop visits); `dat[i]` becomes `dat.getD i 0`, which agrees
  with the C array read whenever `i` is in bounds.  Memory safety is
  settled separately through `getPitch3O`/`getPitch4O`, where every array
  access and every division is checked (`Option`-valued).
* the external collaborators (file system, `GetAudioLength`, the WORLD
  Harvest extractor, allocation success) are an explicit environment
  record `Env`; the f0 contour Harvest produces is the field `Env.f0`.
* the process-wide `jsonResult` object (defined in `jsonString.hpp`,
  which is not part of this repository) becomes an explicit state value
  threaded through `__PitchAnalyzer`.
-/

/-- Modelled from the spec: `jsonString.hpp` (not in the repository)
defines the shared `jsonResult` mapping with keys `status`, `comment`,
`pitch1` .. `pitch4` (AnalysisResult in the spec's data model). -/
structure JsonResult where
  status : Int
  comment : String
  pitch1 : ℚ
  pitch2 : ℚ
  pitch3 : ℚ
  pitch4 : ℚ
  deriving DecidableEq

/-- The `errCode` catalog of `speech.cpp` (status code ↦ description). -/
def errCode : List (Int × String) :=
  [(0, "success"),
   (1000, "Error : file not found"),
   (1001, "Error : file cannot be read"),
   (1002, "Error : file is not on correct format"),
   (2000, "Error : no speech detected"),
   (2001, "Error : cannot calculate pitch 1. Reason : ..."),
   (2002, "Error : cannot calculate pitch 2. Reason : ..."),
   (2003, "Error : cannot calculate pitch 3. Reason : ..."),
   (2004, "Error : cannot calculate pitch 4. Reason : ..."),
   (3000, "Error : Memory Allocation Error")]

/-- The lookup `errCode.at k` of the C++ map (every key used by the code is present,
so the default of the total model is never produced). -/
def errCodeAt (k : Int) : String := (errCode.lookup k).getD ""

/-- The accumulation loop of `getPitch1`: skip zero frames, add the rest
(`if (dat[i] == 0.0) continue; sum += dat[i];`). -/
def pitch1Sum (dat : List ℚ) : ℚ :=
  dat.foldl (fun s x => if x = 0 then s else s + x) 0

/-- Function `getPitch1` of `speech.cpp`: the masked sum divided by the total
frame count (`return (double)sum / dat_length;`). -/
def getPitch1 (dat : List ℚ) : ℚ :=
  pitch1Sum dat / (dat.length : ℚ)

/-- Function `getPitch2` of `speech.cpp`: population standard deviation over all
frames.  `sq` models the external `std::sqrt`; `std::pow(x, 2)` is the
exact square. -/
def getPitch2 (sq : ℚ → ℚ) (dat : List ℚ) : ℚ :=
  let sum := dat.foldl (fun s each => s + each) 0
  let mean := sum / (dat.length : ℚ)
  let sd := dat.foldl (fun s each => s + (each - mean) ^ 2) 0
  sq (sd / (dat.length : ℚ))

/-- Function `getPitch3` of `speech.cpp`: both half-sums are divided by the
truncated half-length `dat_length / 2` (C integer division). -/
def getPitch3 (dat : List ℚ) : ℚ :=
  let n := dat.length
  let sum1 := (List.range' 0 (n / 2)).foldl (fun s i => s + dat.getD i 0) 0
  let s1 := sum1 / ((n / 2 : ℕ) : ℚ)
  let sum2 := (List.range' (n / 2) (n - n / 2)).foldl (fun s i => s + dat.getD i 0) 0
  let s2 := sum2 / ((n / 2 : ℕ) : ℚ)
  s2 - s1

/-- Function `getPitch4` of `speech.cpp`.  The head loop accumulates
(`sum1 += dat[i]`), but the tail loop only assigns (`sum2 = dat[i];`), so
only the final iteration's value survives before the division by `5.0`.
The head divisor is the signed quantity `dat_length - 5` (here `(n:ℚ)-5`).
This total model reads `dat[i]` as `dat.getD i 0` and is the value-level
model for the in-bounds regime `n ≥ 6`; the checked model `getPitch4O`
below settles what happens for `n ≤ 5`. -/
def getPitch4 (dat : List ℚ) : ℚ :=
  let n := dat.length
  let sum1 := (List.range' 0 (n - 5)).foldl (fun s i => s + dat.getD i 0) 0
  let s1 := sum1 / ((n : ℚ) - 5)
  let sum2 := (List.range' (n - 5) (n - (n - 5))).foldl (fun _ i => dat.getD i 0) 0
  let s2 := sum2 / 5
  s2 - s1

/-- Guarded division: `none` is the division-by-zero error branch of the
C `double` division. -/
def divO (a b : ℚ) : Option ℚ := if b = 0 then none else some (a / b)

/-- Checked array read at a signed index, as the C loops use `int`
indices: negative or past-the-end indices are out of bounds. -/
def idxO (dat : List ℚ) (i : Int) : Option ℚ :=
  if i < 0 then none else dat.get? i.toNat

/-- The list of `int` loop indices `a, a+1, ..` of length `n`. -/
def intRangeAux (a : Int) : ℕ → List Int
  | 0 => []
  | n + 1 => a :: intRangeAux (a + 1) n

/-- The indices visited by `for (int i = a; i < b; i++)`. -/
def intRange (a b : Int) : List Int := intRangeAux a (b - a).toNat

/-- Every read of the loop checked; `none` as soon as one is out of
bounds. -/
def getAllO (dat : List ℚ) : List Int → Option (List ℚ)
  | [] => some []
  | i :: is => (idxO dat i).bind fun x => (getAllO dat is).map fun xs => x :: xs

/-- Checked variant of `getPitch1`, with the division checked: the source divides by
`dat_length` with no guard. -/
def getPitch1G (dat : List ℚ) : Option ℚ :=
  divO (pitch1Sum dat) (dat.length : ℚ)

/-- Checked variant of `getPitch3`: every array access and division checked. -/
def getPitch3O (dat : List ℚ) : Option ℚ :=
  (getAllO dat (intRange 0 ((dat.length : Int) / 2))).bind fun xs =>
  (divO xs.sum (((dat.length : Int) / 2 : Int) : ℚ)).bind fun s1 =>
  (getAllO dat (intRange ((dat.length : Int) / 2) (dat.length : Int))).bind fun ys =>
  (divO ys.sum (((dat.length : Int) / 2 : Int) : ℚ)).bind fun s2 =>
  some (s2 - s1)

/-- Checked variant of `getPitch4`: every array access and division checked; the tail
loop's assignment semantics keeps only the last read value
(`getLastD _ 0`, matching `double sum2{}` when the loop never runs). -/
def getPitch4O (dat : List ℚ) : Option ℚ :=
  (getAllO dat (intRange 0 ((dat.length : Int) - 5))).bind fun xs =>
  (divO xs.sum ((dat.length : ℚ) - 5)).bind fun s1 =>
  (getAllO dat (intRange ((dat.length : Int) - 5) (dat.length : Int))).bind fun ys =>
  (divO (ys.getLastD 0) 5).bind fun s2 =>
  some (s2 - s1)

/-- The external collaborators of one `__PitchAnalyzer` call: file
system, `GetAudioLength`, allocation outcomes, `std::sqrt`, and the f0
contour the WORLD Harvest extractor fills in. -/
structure Env where
  fileOpens : Bool
  audioLength : Int
  wavAllocOk : Bool
  f0AllocOk : Bool
  allocMsg : String
  sqrtD : ℚ → ℚ
  f0 : List ℚ

/-- Function `__PitchAnalyzer` of `speech.cpp` as a state transformer on the
shared `jsonResult` object: the updated state paired with the returned
status code.  Each branch writes exactly the fields the corresponding
C++ path writes; in particular the success path writes the four pitch
fields and the comment but never the status. -/
def pitchAnalyzerMain (env : Env) (st : JsonResult) : JsonResult × Int :=
  if env.fileOpens = false then
    ({ st with status := 1000, comment := errCodeAt 1000 }, 1000)
  else if env.audioLength = 0 ∨ env.audioLength = -1 then
    ({ st with status := 1002, comment := errCodeAt 1002 }, 1002)
  else if env.wavAllocOk = false then
    ({ st with status := 3000, comment := errCodeAt 3000 ++ env.allocMsg }, 3000)
  else if env.f0AllocOk = false then
    ({ st with status := 3000, comment := errCodeAt 3000 ++ env.allocMsg }, 3000)
  else
    ({ st with
        pitch1 := getPitch1 env.f0,
        pitch2 := getPitch2 env.sqrtD env.f0,
        pitch3 := getPitch3 env.f0,
        pitch4 := getPitch4 env.f0,
        comment := errCodeAt 0 }, 0)

/-- Serialization `jsonResult.dump()`: the JSON text (nlohmann emits object
keys in lexicographic order; number rendering is abstracted by `toString`). -/
def dump (st : JsonResult) : String :=
  "\x7b\"comment\":\"" ++ st.comment ++ "\",\"pitch1\":" ++ toString st.pitch1 ++
  ",\"pitch2\":" ++ toString st.pitch2 ++ ",\"pitch3\":" ++ toString st.pitch3 ++
  ",\"pitch4\":" ++ toString st.pitch4 ++ ",\"status\":" ++ toString st.status ++ "\x7d"

/-- Function `PitchAnalyzer2` of `speech.cpp` (Variant B): runs the pipeline,
ignores its status code, and returns a freshly allocated buffer holding
the serialization of the shared result.  `Option String` models the
returned pointer; `none` would be a failure-indicator (null) return,
which no path of the function produces. -/
def PitchAnalyzer2 (env : Env) (st : JsonResult) : Option String × JsonResult :=
  let r := pitchAnalyzerMain env st
  (some (dump r.1), r.1)

/-! ### Helper lemmas about the loop embeddings -/

/-- An accumulating loop is the initial value plus the sum of the mapped
visited elements. -/
theorem foldl_add_map {α : Type} (f : α → ℚ) :
    ∀ (l : List α) (c : ℚ), l.foldl (fun s x => s + f x) c = c + (l.map f).sum
  | [], c => by simp
  | a :: l, c => by
    rw [List.foldl_cons, foldl_add_map f l (c + f a)]
    simp [add_assoc]

/-- The skip-zero accumulation of `getPitch1` is the sum of the nonzero
elements. -/
theorem foldl_skipzero :
    ∀ (l : List ℚ) (c : ℚ),
      l.foldl (fun s x => if x = 0 then s else s + x) c = c + (l.filter (· ≠ 0)).sum
  | [], c => by simp
  | a :: l, c => by
    rw [List.foldl_cons, foldl_skipzero l]
    by_cases ha : a = 0 <;> simp [ha, List.filter_cons, add_assoc]

/-- An assignment-only loop body keeps the value of the final iteration. -/
theorem foldl_assign {α : Type} (f : α → ℚ) :
    ∀ (l : List α) (c : ℚ), l.foldl (fun _ x => f x) c = (l.map f).getLastD c
  | [], c => by simp
  | a :: l, c => by
    rw [List.foldl_cons, foldl_assign f l (f a), List.map_cons, List.getLastD_cons]

/-- The indices visited by an in-bounds index loop read exactly a slice
of the array. -/
theorem map_getD_range' (dat : List ℚ) :
    ∀ (n a : ℕ), a + n ≤ dat.length →
      (List.range' a n).map (fun i => dat.getD i 0) = (dat.drop a).take n
  | 0, a, _ => by simp
  | n + 1, a, h => by
    have ha : a < dat.length := by omega
    rw [List.range'_succ, List.map_cons, map_getD_range' dat n (a + 1) (by omega)]
    have hd : dat.getD a 0 = dat.get ⟨a, ha⟩ := by
      simp [List.getD_eq_getElem?_getD, List.getElem?_eq_getElem ha]
    rw [hd]
    conv_rhs => rw [List.drop_eq_getElem_cons ha, List.take_succ_cons]
    rfl

/-- In-bounds checked reads all succeed and read exactly a slice. -/
theorem getAllO_ok (dat : List ℚ) :
    ∀ (n a : ℕ), a + n ≤ dat.length →
      getAllO dat (intRangeAux (a : Int) n) = some ((dat.drop a).take n)
  | 0, a, _ => by simp [intRangeAux, getAllO]
  | n + 1, a, h => by
    have ha : a < dat.length := by omega
    have hcast : (a : Int) + 1 = ((a + 1 : ℕ) : Int) := by push_cast; ring
    rw [intRangeAux, hcast]
    simp only [getAllO, getAllO_ok dat n (a + 1) (by omega)]
    have hneg : ¬((a : Int) < 0) := by omega
    have hidx : idxO dat (a : Int) = some (dat.get ⟨a, ha⟩) := by
      simp [idxO, hneg, List.get?_eq_getElem?, List.getElem?_eq_getElem ha]
    rw [hidx]
    conv_rhs => rw [List.drop_eq_getElem_cons ha, List.take_succ_cons]
    rfl

/-- A loop that starts at a negative index fails its first checked read. -/
theorem getAllO_neg (dat : List ℚ) (a : Int) (n : ℕ) (ha : a < 0) (hn : 0 < n) :
    getAllO dat (intRangeAux a n) = none := by
  cases n with
  | zero => omega
  | succ m => simp [intRangeAux, getAllO, idxO, ha]

/-- Reading at index `length - 1` with default is reading the last
element with default. -/
theorem getD_last_eq (dat : List ℚ) : dat.getD (dat.length - 1) 0 = dat.getLastD 0 := by
  rw [List.getLastD_eq_getLast?, List.getLast?_eq_get?, List.getD_eq_get?]

/-- Dropping a strict prefix does not change the last element. -/
theorem getLastD_drop (dat : List ℚ) (k : ℕ) (hk : k < dat.length) :
    (dat.drop k).getLastD 0 = dat.getLastD 0 := by
  have hidx : k + ((dat.drop k).length - 1) = dat.length - 1 := by
    simp only [List.length_drop]
    omega
  rw [List.getLastD_eq_getLast?, List.getLastD_eq_getLast?, List.getLast?_eq_get?,
    List.getLast?_eq_get?, List.get?_drop, hidx]

/-- An assignment-only loop over a nonempty index range keeps the value
read at the final index. -/
theorem foldl_assign_range' (f : ℕ → ℚ) :
    ∀ (n a : ℕ) (c : ℚ), (List.range' a (n + 1)).foldl (fun _ i => f i) c = f (a + n)
  | 0, a, c => by simp [List.range']
  | n + 1, a, c => by
    rw [List.range'_succ, List.foldl_cons, foldl_assign_range' f n (a + 1) (f a)]
    congr 1
    omega

/-- Rewriting `getPitch3` in closed form: both half-sums over the two slices, both
divided by the truncated half-length. -/
theorem getPitch3_eq (dat : List ℚ) :
    getPitch3 dat = (dat.drop (dat.length / 2)).sum / ((dat.length / 2 : ℕ) : ℚ)
      - (dat.take (dat.length / 2)).sum / ((dat.length / 2 : ℕ) : ℚ) := by
  have h1 : (List.range' 0 (dat.length / 2)).foldl (fun s i => s + dat.getD i 0) 0
      = (dat.take (dat.length / 2)).sum := by
    rw [foldl_add_map (fun i => dat.getD i 0),
      map_getD_range' dat (dat.length / 2) 0 (by omega)]
    simp
  have h2 : (List.range' (dat.length / 2) (dat.length - dat.length / 2)).foldl
      (fun s i => s + dat.getD i 0) 0 = (dat.drop (dat.length / 2)).sum := by
    rw [foldl_add_map (fun i => dat.getD i 0),
      map_getD_range' dat (dat.length - dat.length / 2) (dat.length / 2) (by omega)]
    rw [List.take_of_length_le (by simp)]
    simp
  simp only [getPitch3, h1, h2]

/-- Rewriting `getPitch4` in closed form for the in-bounds regime: the last frame
divided by `5`, minus the head average. -/
theorem getPitch4_eq (dat : List ℚ) (h : 6 ≤ dat.length) :
    getPitch4 dat = dat.getLastD 0 / 5
      - (dat.take (dat.length - 5)).sum / ((dat.length : ℚ) - 5) := by
  have h1 : (List.range' 0 (dat.length - 5)).foldl (fun s i => s + dat.getD i 0) 0
      = (dat.take (dat.length - 5)).sum := by
    rw [foldl_add_map (fun i => dat.getD i 0),
      map_getD_range' dat (dat.length - 5) 0 (by omega)]
    simp
  have h5 : dat.length - (dat.length - 5) = 4 + 1 := by omega
  have h2 : (List.range' (dat.length - 5) (dat.length - (dat.length - 5))).foldl
      (fun _ i => dat.getD i 0) 0 = dat.getLastD 0 := by
    rw [h5, foldl_assign_range' (fun i => dat.getD i 0) 4 (dat.length - 5) 0]
    have : dat.length - 5 + 4 = dat.length - 1 := by omega
    rw [this, getD_last_eq]
  simp only [getPitch4, h1, h2]

/-- For at least two frames every checked access of `getPitch3` is in
bounds and both divisions are by the nonzero `dat_length / 2`: the
checked run agrees with the total model. -/
theorem getPitch3O_eq (dat : List ℚ) (h : 2 ≤ dat.length) :
    getPitch3O dat = some (getPitch3 dat) := by
  have e1 : intRange 0 ((dat.length : Int) / 2)
      = intRangeAux ((0 : ℕ) : Int) (dat.length / 2) := by
    rw [intRange]
    have t : ((dat.length : Int) / 2 - 0).toNat = dat.length / 2 := by omega
    rw [t, Nat.cast_zero]
  have e2 : intRange ((dat.length : Int) / 2) (dat.length : Int)
      = intRangeAux ((dat.length / 2 : ℕ) : Int) (dat.length - dat.length / 2) := by
    rw [intRange]
    have t1 : ((dat.length : Int) - (dat.length : Int) / 2).toNat
        = dat.length - dat.length / 2 := by omega
    have t2 : ((dat.length : Int) / 2) = ((dat.length / 2 : ℕ) : Int) := by omega
    rw [t1, t2]
  have r1 := getAllO_ok dat (dat.length / 2) 0 (by omega)
  have r2 := getAllO_ok dat (dat.length - dat.length / 2) (dat.length / 2) (by omega)
  have dcast : (((dat.length : Int) / 2 : Int) : ℚ) = ((dat.length / 2 : ℕ) : ℚ) := by
    have e : ((dat.length : Int) / 2) = ((dat.length / 2 : ℕ) : Int) := by omega
    rw [e, Int.cast_natCast]
  have d0 : ((dat.length / 2 : ℕ) : ℚ) ≠ 0 := by
    rw [Nat.cast_ne_zero]
    omega
  have hslice : (dat.drop (dat.length / 2)).take (dat.length - dat.length / 2)
      = dat.drop (dat.length / 2) := List.take_of_length_le (by simp)
  rw [getPitch3O, e1, e2, r1, r2]
  simp only [Option.some_bind, dcast, divO, if_neg d0, List.drop_zero, hslice]
  rw [getPitch3_eq]

/-- For at least six frames every checked access of `getPitch4` is in
bounds and both divisions are by nonzero values: the checked run agrees
with the total model. -/
theorem getPitch4O_eq (dat : List ℚ) (h : 6 ≤ dat.length) :
    getPitch4O dat = some (getPitch4 dat) := by
  have e1 : intRange 0 ((dat.length : Int) - 5)
      = intRangeAux ((0 : ℕ) : Int) (dat.length - 5) := by
    rw [intRange]
    have t : ((dat.length : Int) - 5 - 0).toNat = dat.length - 5 := by omega
    rw [t, Nat.cast_zero]
  have e2 : intRange ((dat.length : Int) - 5) (dat.length : Int)
      = intRangeAux ((dat.length - 5 : ℕ) : Int) 5 := by
    rw [intRange]
    have t1 : ((dat.length : Int) - ((dat.length : Int) - 5)).toNat = 5 := by omega
    have t2 : ((dat.length : Int) - 5) = ((dat.length - 5 : ℕ) : Int) := by omega
    rw [t1, t2]
  have r1 := getAllO_ok dat (dat.length - 5) 0 (by omega)
  have r2 := getAllO_ok dat 5 (dat.length - 5) (by omega)
  have hd5 : ((dat.length : ℚ) - 5) ≠ 0 := by
    have : dat.length ≠ 5 := by omega
    exact sub_ne_zero.mpr (by exact_mod_cast this)
  have h50 : (5 : ℚ) ≠ 0 := by norm_num
  have hslice : (dat.drop (dat.length - 5)).take 5 = dat.drop (dat.length - 5) :=
    List.take_of_length_le (by simp only [List.length_drop]; omega)
  have hlast : (dat.drop (dat.length - 5)).getLastD 0 = dat.getLastD 0 :=
    getLastD_drop dat (dat.length - 5) (by omega)
  rw [getPitch4O, e1, e2, r1, r2]
  simp only [Option.some_bind, divO, if_neg hd5, if_neg h50, List.drop_zero, hslice, hlast]
  rw [getPitch4_eq dat h]

/-- For at most five frames `getPitch4`'s checked run fails: with exactly
five frames the head average divides by `dat_length - 5 = 0`, and with
fewer the tail loop starts at the negative index `dat_length - 5`. -/
theorem getPitch4O_none (dat : List ℚ) (h : dat.length ≤ 5) :
    getPitch4O dat = none := by
  have e1 : intRange 0 ((dat.length : Int) - 5) = [] := by
    rw [intRange]
    have e : ((dat.length : Int) - 5 - 0).toNat = 0 := by omega
    rw [e]
    rfl
  rcases Nat.lt_or_ge dat.length 5 with h4 | h5
  · have hd : ((dat.length : ℚ) - 5) ≠ 0 := by
      have : dat.length ≠ 5 := by omega
      exact sub_ne_zero.mpr (by exact_mod_cast this)
    have e2 : getAllO dat (intRange ((dat.length : Int) - 5) (dat.length : Int)) = none := by
      rw [intRange]
      exact getAllO_neg dat _ _ (by omega) (by omega)
    rw [getPitch4O, e1, e2]
    simp only [getAllO, Option.some_bind, divO, if_neg hd, Option.none_bind]
  · have h5' : dat.length = 5 := by omega
    have hd : ((dat.length : ℚ) - 5) = 0 := by
      rw [h5']
      norm_num
    rw [getPitch4O, e1]
    simp [getAllO, divO, hd]

/-- The plain accumulation loop is the list sum. -/
theorem foldl_add_id : ∀ (l : List ℚ) (c : ℚ), l.foldl (fun s x => s + x) c = c + l.sum
  | [], c => by simp
  | a :: l, c => by
    rw [List.foldl_cons, foldl_add_id l (c + a)]
    simp [List.sum_cons]
    ring

/-- Rewriting `getPitch2` in closed form: the square root of the mean squared
deviation from the mean, all frames included. -/
theorem getPitch2_closed (sq : ℚ → ℚ) (dat : List ℚ) :
    getPitch2 sq dat
      = sq ((dat.map (fun x => (x - dat.sum / (dat.length : ℚ)) ^ 2)).sum
          / (dat.length : ℚ)) := by
  simp only [getPitch2, foldl_add_id, zero_add,
    foldl_add_map (fun x => (x - dat.sum / (dat.length : ℚ)) ^ 2)]

/-! ### The claims -/

/-- C3: for every frequency sequence with at least two frames, Pitch3 is
the second-half sum from index `⌊F/2⌋` to `F-1` divided by `⌊F/2⌋`, minus
the first-half sum of indices below `⌊F/2⌋` divided by the same `⌊F/2⌋`;
for odd frame counts the second half covers `⌊F/2⌋ + 1` frames, one more
than its denominator accounts for. -/
theorem getPitch3_halvesDelta (dat : List ℚ) (h : 2 ≤ dat.length) :
    getPitch3 dat = (dat.drop (dat.length / 2)).sum / ((dat.length / 2 : ℕ) : ℚ)
        - (dat.take (dat.length / 2)).sum / ((dat.length / 2 : ℕ) : ℚ) ∧
      (dat.length % 2 = 1 → (dat.drop (dat.length / 2)).length = dat.length / 2 + 1) := by
  refine ⟨getPitch3_eq dat, fun hodd => ?_⟩
  simp only [List.length_drop]
  omega

/-- C3 witness at the spec's reference sequence `[10,20,30,40,50]`. -/
theorem getPitch3_halvesDelta_w :
    2 ≤ ([10, 20, 30, 40, 50] : List ℚ).length ∧
      (getPitch3 [10, 20, 30, 40, 50]
          = (([10, 20, 30, 40, 50] : List ℚ).drop (([10, 20, 30, 40, 50] : List ℚ).length / 2)).sum
              / ((([10, 20, 30, 40, 50] : List ℚ).length / 2 : ℕ) : ℚ)
            - (([10, 20, 30, 40, 50] : List ℚ).take (([10, 20, 30, 40, 50] : List ℚ).length / 2)).sum
              / ((([10, 20, 30, 40, 50] : List ℚ).length / 2 : ℕ) : ℚ) ∧
        (([10, 20, 30, 40, 50] : List ℚ).length % 2 = 1 →
          (([10, 20, 30, 40, 50] : List ℚ).drop (([10, 20, 30, 40, 50] : List ℚ).length / 2)).length
            = ([10, 20, 30, 40, 50] : List ℚ).length / 2 + 1)) :=
  ⟨by decide, getPitch3_halvesDelta [10, 20, 30, 40, 50] (by decide)⟩

/-- C4: Pitch1 is the sum of the non-zero frames divided by the total
frame count; when every frame is zero it is 0. -/
theorem getPitch1_meanTotal (dat : List ℚ) (h : 0 < dat.length) :
    getPitch1 dat = (dat.filter (· ≠ 0)).sum / (dat.length : ℚ) ∧
      ((∀ x ∈ dat, x = 0) → getPitch1 dat = 0) := by
  have h1 : getPitch1 dat = (dat.filter (· ≠ 0)).sum / (dat.length : ℚ) := by
    rw [getPitch1, pitch1Sum, foldl_skipzero, zero_add]
  refine ⟨h1, fun hz => ?_⟩
  have hs : (dat.filter (· ≠ 0)).sum = 0 :=
    List.sum_eq_zero fun x hx => hz x (List.mem_of_mem_filter hx)
  rw [h1, hs, zero_div]

/-- C4 witness: an all-silent three-frame sequence has Pitch1 = 0. -/
theorem getPitch1_meanTotal_w :
    0 < ([0, 0, 0] : List ℚ).length ∧ getPitch1 [0, 0, 0] = 0 :=
  ⟨by decide, (getPitch1_meanTotal [0, 0, 0] (by decide)).2 (by decide)⟩

/-- C5 counterexample: the division of `getPitch1` is not guarded — on a
zero-length frame sequence the checked division's error branch IS
reached. -/
theorem getPitch1_guard_cex : getPitch1G ([] : List ℚ) = none := by decide

/-- C5 (amended): `getPitch1` divides by the frame count with no guard:
the division's error branch is reached exactly when the frame count is
0, and for every nonzero frame count it is unreachable and the checked
run agrees with `getPitch1`. -/
theorem getPitch1_zeroLenDiv (dat : List ℚ) :
    (getPitch1G dat = none ↔ dat.length = 0) ∧
      (0 < dat.length → getPitch1G dat = some (getPitch1 dat)) := by
  by_cases hl : dat.length = 0
  · simp [getPitch1G, divO, hl]
  · have hq : ((dat.length : ℚ)) ≠ 0 := by exact_mod_cast hl
    simp [getPitch1G, divO, hq, getPitch1, hl]

/-- C5 witness: on a one-frame sequence the division succeeds. -/
theorem getPitch1_zeroLenDiv_w : getPitch1G [(1 : ℚ)] = some (getPitch1 [(1 : ℚ)]) :=
  (getPitch1_zeroLenDiv [(1 : ℚ)]).2 (by decide)

/-- C7: Pitch2 is invariant under reordering of the frequency sequence
and is nonnegative, granted the libm contract that `sqrt` is
nonnegative on nonnegative input. -/
theorem getPitch2_reorder (sq : ℚ → ℚ) (hsq : ∀ x, 0 ≤ x → 0 ≤ sq x)
    (dat1 dat2 : List ℚ) (h1 : 1 ≤ dat1.length) (hp : dat1.Perm dat2) :
    getPitch2 sq dat2 = getPitch2 sq dat1 ∧ 0 ≤ getPitch2 sq dat1 := by
  have hlen := hp.length_eq
  have hsum := hp.sum_eq
  constructor
  · rw [getPitch2_closed, getPitch2_closed, ← hlen, ← hsum]
    congr 1
    congr 1
    exact ((hp.map (fun x => (x - dat1.sum / (dat1.length : ℚ)) ^ 2)).sum_eq).symm
  · rw [getPitch2_closed]
    apply hsq
    apply div_nonneg
    · apply List.sum_nonneg
      intro x hx
      obtain ⟨y, _, rfl⟩ := List.mem_map.mp hx
      positivity
    · exact Nat.cast_nonneg _

/-- C7 witness: a two-frame sequence and its swap. -/
theorem getPitch2_reorder_w :
    getPitch2 (fun x => x) [2, 1] = getPitch2 (fun x => x) [1, 2] ∧
      0 ≤ getPitch2 (fun x => x) [1, 2] :=
  getPitch2_reorder (fun x => x) (fun _ hx => hx) [1, 2] [2, 1] (by decide) (by decide)

/-- C1 counterexample: on `[5,0,0,0,0,10]` the claim's formula — head
average minus last-frame/5 — gives `3`, but the code computes
`sum2 - sum1`, i.e. last-frame/5 minus head average, which is `-3`. -/
theorem getPitch4_claim_cex :
    ¬ (getPitch4 [5, 0, 0, 0, 0, 10]
        = (([5, 0, 0, 0, 0, 10] : List ℚ).take (([5, 0, 0, 0, 0, 10] : List ℚ).length - 5)).sum
            / ((([5, 0, 0, 0, 0, 10] : List ℚ).length : ℚ) - 5)
          - ([5, 0, 0, 0, 0, 10] : List ℚ).getLastD 0 / 5) := by
  norm_num [getPitch4, List.range', List.getLastD]

/-- C1 (amended): for at least six frames, Pitch4 is the value of the
LAST frame of `[F-5, F)` divided by 5 — only the final iteration's value
survives accumulation — MINUS the average of frames `[0, F-5)` (the code
returns `sum2 - sum1`, the opposite order of the claim). -/
theorem getPitch4_tailContrast (dat : List ℚ) (h : 6 ≤ dat.length) :
    getPitch4 dat = dat.getLastD 0 / 5
      - (dat.take (dat.length - 5)).sum / ((dat.length : ℚ) - 5) :=
  getPitch4_eq dat h

/-- C1 witness at a six-frame sequence. -/
theorem getPitch4_tailContrast_w :
    6 ≤ ([10, 20, 30, 40, 50, 60] : List ℚ).length ∧
      getPitch4 [10, 20, 30, 40, 50, 60]
        = ([10, 20, 30, 40, 50, 60] : List ℚ).getLastD 0 / 5
          - (([10, 20, 30, 40, 50, 60] : List ℚ).take
                (([10, 20, 30, 40, 50, 60] : List ℚ).length - 5)).sum
            / ((([10, 20, 30, 40, 50, 60] : List ℚ).length : ℚ) - 5) :=
  ⟨by decide, getPitch4_tailContrast [10, 20, 30, 40, 50, 60] (by decide)⟩

/-- C6: whenever the file cannot be opened, the call writes status 1000
and the catalog entry for 1000 into the shared result and returns 1000;
the catalog entry for 1000 is "Error : file not found". -/
theorem fileNotFound_result (env : Env) (st : JsonResult) (h : env.fileOpens = false) :
    pitchAnalyzerMain env st
        = ({ st with status := 1000, comment := "Error : file not found" }, 1000) ∧
      errCodeAt 1000 = "Error : file not found" := by
  have hcat : errCodeAt 1000 = "Error : file not found" := rfl
  refine ⟨?_, hcat⟩
  simp only [pitchAnalyzerMain, h, if_true, hcat]

/-- C6 witness: a concrete environment whose file does not open. -/
theorem fileNotFound_result_w :
    pitchAnalyzerMain ⟨false, 1, true, true, "", fun x => x, []⟩ ⟨7, "w", 1, 2, 3, 4⟩
        = ({ (⟨7, "w", 1, 2, 3, 4⟩ : JsonResult) with
              status := 1000, comment := "Error : file not found" }, 1000) ∧
      errCodeAt 1000 = "Error : file not found" :=
  fileNotFound_result ⟨false, 1, true, true, "", fun x => x, []⟩ ⟨7, "w", 1, 2, 3, 4⟩ rfl

/-- C9: on the file-not-found path the call leaves all four pitch fields
of the shared result exactly as they were before the call (there is no
reset at the start of a call); only status and comment are written. -/
theorem fileNotFound_framePreserved (env : Env) (st : JsonResult)
    (h : env.fileOpens = false) :
    (pitchAnalyzerMain env st).1.pitch1 = st.pitch1 ∧
      (pitchAnalyzerMain env st).1.pitch2 = st.pitch2 ∧
      (pitchAnalyzerMain env st).1.pitch3 = st.pitch3 ∧
      (pitchAnalyzerMain env st).1.pitch4 = st.pitch4 ∧
      (pitchAnalyzerMain env st).1.status = 1000 ∧
      (pitchAnalyzerMain env st).1.comment = errCodeAt 1000 := by
  simp [pitchAnalyzerMain, h]

/-- C9 witness: stale pitch values 9,8,7,6 survive a failing call. -/
theorem fileNotFound_framePreserved_w :
    (pitchAnalyzerMain ⟨false, 1, true, true, "", fun x => x, [1]⟩
        ⟨0, "", 9, 8, 7, 6⟩).1.pitch1 = (⟨0, "", 9, 8, 7, 6⟩ : JsonResult).pitch1 ∧
      (pitchAnalyzerMain ⟨false, 1, true, true, "", fun x => x, [1]⟩
        ⟨0, "", 9, 8, 7, 6⟩).1.pitch2 = (⟨0, "", 9, 8, 7, 6⟩ : JsonResult).pitch2 ∧
      (pitchAnalyzerMain ⟨false, 1, true, true, "", fun x => x, [1]⟩
        ⟨0, "", 9, 8, 7, 6⟩).1.pitch3 = (⟨0, "", 9, 8, 7, 6⟩ : JsonResult).pitch3 ∧
      (pitchAnalyzerMain ⟨false, 1, true, true, "", fun x => x, [1]⟩
        ⟨0, "", 9, 8, 7, 6⟩).1.pitch4 = (⟨0, "", 9, 8, 7, 6⟩ : JsonResult).pitch4 ∧
      (pitchAnalyzerMain ⟨false, 1, true, true, "", fun x => x, [1]⟩
        ⟨0, "", 9, 8, 7, 6⟩).1.status = 1000 ∧
      (pitchAnalyzerMain ⟨false, 1, true, true, "", fun x => x, [1]⟩
        ⟨0, "", 9, 8, 7, 6⟩).1.comment = errCodeAt 1000 :=
  fileNotFound_framePreserved ⟨false, 1, true, true, "", fun x => x, [1]⟩
    ⟨0, "", 9, 8, 7, 6⟩ rfl

/-- C2 (code bug): a successful analysis performed right after a
file-not-found failure returns 0 and populates the pitch fields, but the
shared result still carries the stale status 1000, because the success
path never writes the status field (it writes only pitch1..pitch4 and
the comment). -/
theorem successStatusStale :
    ((pitchAnalyzerMain ⟨true, 1, true, true, "", fun x => x, [1]⟩
        (pitchAnalyzerMain ⟨false, 1, true, true, "", fun x => x, [1]⟩
          ⟨0, "", 0, 0, 0, 0⟩).1).2 = 0) ∧
      ((pitchAnalyzerMain ⟨true, 1, true, true, "", fun x => x, [1]⟩
        (pitchAnalyzerMain ⟨false, 1, true, true, "", fun x => x, [1]⟩
          ⟨0, "", 0, 0, 0, 0⟩).1).1.status = 1000) ∧
      ((pitchAnalyzerMain ⟨true, 1, true, true, "", fun x => x, [1]⟩
        (pitchAnalyzerMain ⟨false, 1, true, true, "", fun x => x, [1]⟩
          ⟨0, "", 0, 0, 0, 0⟩).1).1.comment = errCodeAt 0) := by
  refine ⟨rfl, rfl, rfl⟩

/-- C8: Variant B always returns a buffer — never the failure-indicator
(null) pointer — and the buffer holds exactly the serialization of the
result state left by the pipeline, on the success path and on every
failure path alike. -/
theorem pitchAnalyzer2_buffer (env : Env) (st : JsonResult) :
    (PitchAnalyzer2 env st).1 = some (dump (pitchAnalyzerMain env st).1) ∧
      (PitchAnalyzer2 env st).1 ≠ none :=
  ⟨rfl, by simp [PitchAnalyzer2]⟩

/-- C10: with at least six frames every access of `getPitch3` and
`getPitch4` is in bounds and every division is by a nonzero denominator
(the checked runs succeed, agreeing with the total models); two frames
already suffice for `getPitch3`; with at most five frames `getPitch4`'s
checked run fails (division by `F-5 = 0` at five frames, an access at
the negative start index `F-5` below that). -/
theorem pitchLoops_safety (dat : List ℚ) :
    (2 ≤ dat.length → (getPitch3O dat).isSome = true) ∧
      (6 ≤ dat.length → getPitch3O dat = some (getPitch3 dat)
        ∧ getPitch4O dat = some (getPitch4 dat)) ∧
      (dat.length ≤ 5 → getPitch4O dat = none) := by
  refine ⟨fun h2 => ?_, fun h6 => ⟨getPitch3O_eq dat (by omega), getPitch4O_eq dat h6⟩,
    getPitch4O_none dat⟩
  rw [getPitch3O_eq dat h2]
  rfl

/-- C10 witness: concrete sequences of lengths 2, 5 and 6. -/
theorem pitchLoops_safety_w :
    (getPitch3O [1, 2]).isSome = true ∧
      getPitch4O [1, 2, 3, 4, 5] = none ∧
      getPitch4O [1, 2, 3, 4, 5, 6] = some (getPitch4 [1, 2, 3, 4, 5, 6]) :=
  ⟨(pitchLoops_safety [1, 2]).1 (by decide),
    (pitchLoops_safety [1, 2, 3, 4, 5]).2.2 (by decide),
    ((pitchLoops_safety [1, 2, 3, 4, 5, 6]).2.1 (by decide)).2⟩
